import Mathlib

/-!
Verification of the `WeatherCache` subsystem of the mcp-weather server
(`src/utils/cache.ts`), embedded shallowly: the JavaScript `Map` becomes an
insertion-ordered association list, timestamps become integers supplied as
explicit `now` arguments, and the one JavaScript control path that can throw
(`Array.prototype.reduce` on an empty array inside `ensureCapacity`) is
modelled with `Except`.  Cache categories are strings, as TypeScript string
enums are at runtime; the md5 parameter hash and the payload size estimator
are abstract pure functions passed in as parameters.
-/

namespace MCPWeather

/-! ## String primitives

`key.startsWith(pat)` and `key.includes(pat)` from JavaScript, on the
underlying character lists. -/

/-- Does the string with characters `s` start with the characters `pat`?
Mirrors JavaScript `String.prototype.startsWith`. -/
def charsStartWith : List Char → List Char → Bool
  | [], _ => true
  | _ :: _, [] => false
  | p :: ps, c :: cs => p == c && charsStartWith ps cs

/-- `s.startsWith(pat)` on Lean strings. -/
def strStartsWith (s pat : String) : Bool :=
  charsStartWith pat.data s.data

/-- Does `s` contain `pat` as a contiguous substring?  Mirrors JavaScript
`String.prototype.includes`. -/
def charsContains : List Char → List Char → Bool
  | [], pat => pat.isEmpty
  | c :: cs, pat => charsStartWith pat (c :: cs) || charsContains cs pat

/-- `s.includes(pat)` on Lean strings. -/
def strIncludes (s pat : String) : Bool :=
  charsContains s.data pat.data

/-! ## Coordinate rounding and rendering

`Math.round(x * 10000) / 10000` with the rounded value rendered into the
cache key by JavaScript number-to-string conversion.  Coordinates are
modelled as rationals; `jsRound` is JavaScript `Math.round` (round half
toward positive infinity). -/

/-- JavaScript `Math.round`: round to nearest, halves toward `+∞`. -/
def jsRound (q : ℚ) : ℤ := ⌊q + 1/2⌋

/-- `Math.round(x * 10000)`: the coordinate scaled to 4-decimal fixed point.
The value stored in the key is this integer divided by `10000`. -/
def roundCoordScaled (q : ℚ) : ℤ := jsRound (q * 10000)

/-- Drop trailing `'0'` characters (JavaScript prints `10.5`, not `10.5000`). -/
def dropTrailingZeros (l : List Char) : List Char :=
  (l.reverse.dropWhile (fun c => c == '0')).reverse

/-- Render a nonnegative 4-decimal fixed-point value `n / 10000` the way a
JavaScript template literal renders the corresponding number. -/
def renderScaledNat (n : ℕ) : String :=
  let ip := n / 10000
  let fr := n % 10000
  if fr = 0 then toString ip
  else toString ip ++ "." ++ String.mk (dropTrailingZeros (toString (10000 + fr)).data.tail)

/-- Render a 4-decimal fixed-point value `z / 10000` as JavaScript would
(`-0` renders as `0`, which the `z = 0` case covers). -/
def renderScaled (z : ℤ) : String :=
  if z < 0 then ("-") ++ renderScaledNat z.natAbs else renderScaledNat z.natAbs

/-! ## Cache key generation (`WeatherCache.generateKey`)

Parameter records are modelled as association lists of already-rendered
`key : value` strings; `Object.keys(...).sort()` is insertion sort by the
lexicographic string order. -/

/-- The runtime string values of the `CacheType` enum. -/
def CacheType.CURRENT_WEATHER : String := "current_weather"

/-- The `forecast` category tag. -/
def CacheType.FORECAST : String := "forecast"

/-- The `hourly_forecast` category tag. -/
def CacheType.HOURLY_FORECAST : String := "hourly_forecast"

/-- The `geocoding` category tag. -/
def CacheType.GEOCODING : String := "geocoding"

/-- Argument record of `generateKey`.  `parameters := none` models an omitted
`parameters` field; `some ps` models a present (possibly empty) object. -/
structure CacheKeyParams where
  latitude : ℚ
  longitude : ℚ
  type : String
  parameters : Option (List (String × String))

/-- Insert one binding into a list sorted by key. -/
def insertSorted (x : String × String) : List (String × String) → List (String × String)
  | [] => [x]
  | y :: ys => if x.1 ≤ y.1 then x :: y :: ys else y :: insertSorted x ys

/-- `Object.keys(params).sort()` together with the subsequent lookup:
sort the bindings by key. -/
def sortByKey : List (String × String) → List (String × String)
  | [] => []
  | x :: xs => insertSorted x (sortByKey xs)

/-- `WeatherCache.generateKey`.  `md5hex8` stands for the first 8 hex
characters of the md5 digest, kept abstract. -/
def generateKey (md5hex8 : String → String) (p : CacheKeyParams) : String :=
  let lat := roundCoordScaled p.latitude
  let lon := roundCoordScaled p.longitude
  let paramString :=
    match p.parameters with
    | some ps => String.intercalate ("|") ((sortByKey ps).map (fun kv => kv.1 ++ ":" ++ kv.2))
    | none => ""
  let baseKey := p.type ++ ":" ++ renderScaled lat ++ "," ++ renderScaled lon
  if paramString ≠ "" then baseKey ++ ":" ++ md5hex8 paramString
  else baseKey

/-! ## Per-category configuration (the table built by the constructor) -/

/-- `CacheConfig`: TTL, capacity and sweep interval of one category. -/
structure CacheConfig where
  ttl : ℤ
  maxSize : ℕ
  cleanupInterval : ℤ
deriving DecidableEq

/-- The fixed configuration table set up by the constructor.  TypeScript's
`configs.get` returns `undefined` for strings outside the enum, hence
`Option`. -/
def configs (t : String) : Option CacheConfig :=
  if t = CacheType.CURRENT_WEATHER then some ⟨600000, 1000, 300000⟩
  else if t = CacheType.FORECAST then some ⟨3600000, 500, 900000⟩
  else if t = CacheType.HOURLY_FORECAST then some ⟨1800000, 300, 600000⟩
  else if t = CacheType.GEOCODING then some ⟨7200000, 2000, 1800000⟩
  else none

/-! ## Entry store

The JavaScript `Map` preserves insertion order, `set` on a present key
overwrites in place, `delete` removes the unique occurrence.  We model it as
an association list with exactly those operations. -/

/-- One cache entry (`CacheEntry<T>`). -/
structure CacheEntry (α : Type) where
  data : α
  timestamp : ℤ
  ttl : ℤ
  accessCount : ℕ
  lastAccess : ℤ
  size : ℕ
deriving DecidableEq

/-- The mutable statistics record of the cache. -/
structure StatsState where
  hits : ℕ
  misses : ℕ
  totalAccessTime : ℤ
  accessCount : ℕ
deriving DecidableEq

/-- The full mutable state of a `WeatherCache` instance. -/
structure WeatherCache (α : Type) where
  cache : List (String × CacheEntry α)
  stats : StatsState
deriving DecidableEq

/-- A freshly constructed cache: empty store, zeroed statistics. -/
def emptyCache {α : Type} : WeatherCache α :=
  { cache := [], stats := ⟨0, 0, 0, 0⟩ }

/-- `Map.prototype.get`: first (and, for reachable states, only) binding. -/
def mapGet {β : Type} : List (String × β) → String → Option β
  | [], _ => none
  | (k', v) :: t, k => if k' = k then some v else mapGet t k

/-- `Map.prototype.set`: overwrite in place if present, else append. -/
def mapSet {β : Type} : List (String × β) → String → β → List (String × β)
  | [], k, v => [(k, v)]
  | (k', v') :: t, k, v =>
      if k' = k then (k, v) :: t else (k', v') :: mapSet t k v

/-- `Map.prototype.delete`: remove the first binding of the key. -/
def mapDelete {β : Type} : List (String × β) → String → List (String × β)
  | [], _ => []
  | (k', v) :: t, k => if k' = k then t else (k', v) :: mapDelete t k

/-! ## The cache operations -/

/-- `typeEntries.reduce((oldest, current) => current.lastAccess < oldest.lastAccess
? current : oldest)`: left fold keeping the accumulator on ties. -/
def reduceLru {α : Type} (oldest : String × CacheEntry α) :
    List (String × CacheEntry α) → String × CacheEntry α
  | [] => oldest
  | current :: rest =>
      reduceLru (if current.2.lastAccess < oldest.2.lastAccess then current else oldest) rest

/-- `WeatherCache.ensureCapacity`.  When the category is at or above capacity
the least-recently-used entry of the category is deleted.  If the category
has no entries while `maxSize = 0`, JavaScript's `reduce` on an empty array
throws; that path is the `.error` case. -/
def ensureCapacity {α : Type} (cache : List (String × CacheEntry α))
    (t : String) (config : CacheConfig) :
    Except String (List (String × CacheEntry α)) :=
  let typeEntries := cache.filter (fun kv => strStartsWith kv.1 (t ++ ":"))
  if config.maxSize ≤ typeEntries.length then
    match typeEntries with
    | [] => .error ("TypeError: Reduce of empty array with no initial value")
    | e :: rest => .ok (mapDelete cache (reduceLru e rest).1)
  else .ok cache

/-- `WeatherCache.set`.  An unknown cache type logs an error and returns
without touching the store (no exception); `estimateSize` is the abstract
payload size estimator. -/
def WeatherCache.set {α : Type} (estimateSize : α → ℕ) (c : WeatherCache α)
    (key : String) (data : α) (cacheType : String) (now : ℤ) :
    Except String (WeatherCache α) :=
  match configs cacheType with
  | none => .ok c
  | some config =>
      let entry : CacheEntry α :=
        { data := data, timestamp := now, ttl := config.ttl, accessCount := 0,
          lastAccess := now, size := estimateSize data }
      match ensureCapacity c.cache cacheType config with
      | .error e => .error e
      | .ok cache' => .ok { c with cache := mapSet cache' key entry }

/-- `WeatherCache.get`.  The two `Date.now()` calls inside one invocation are
modelled as the same instant `now`, so the recorded access time is `0`.
The `_type` argument is unused in the source as well. -/
def WeatherCache.get {α : Type} (c : WeatherCache α) (key : String)
    (_type : String) (now : ℤ) : Option α × WeatherCache α :=
  match mapGet c.cache key with
  | none =>
      (none, { c with stats := { c.stats with
                  misses := c.stats.misses + 1,
                  accessCount := c.stats.accessCount + 1 } })
  | some entry =>
      if entry.ttl < now - entry.timestamp then
        (none, { c with
            cache := mapDelete c.cache key,
            stats := { c.stats with
                misses := c.stats.misses + 1,
                accessCount := c.stats.accessCount + 1 } })
      else
        (some entry.data, { c with
            cache := mapSet c.cache key
              { entry with accessCount := entry.accessCount + 1, lastAccess := now },
            stats := { c.stats with
                hits := c.stats.hits + 1,
                accessCount := c.stats.accessCount + 1 } })

/-- `WeatherCache.invalidate`: with no pattern, clear everything; with a
pattern, delete every key that contains it as a substring.  Returns the
number of removed entries. -/
def WeatherCache.invalidate {α : Type} (c : WeatherCache α)
    (pattern : Option String) : ℕ × WeatherCache α :=
  match pattern with
  | none => (c.cache.length, { c with cache := [] })
  | some p =>
      ((c.cache.filter (fun kv => strIncludes kv.1 p)).length,
       { c with cache := c.cache.filter (fun kv => !strIncludes kv.1 p) })

/-- `WeatherCache.invalidateByLocation`: round the coordinates as
`generateKey` does and invalidate by the `lat,lon` substring. -/
def WeatherCache.invalidateByLocation {α : Type} (c : WeatherCache α)
    (latitude longitude : ℚ) : ℕ × WeatherCache α :=
  let lat := roundCoordScaled latitude
  let lon := roundCoordScaled longitude
  c.invalidate (some (renderScaled lat ++ "," ++ renderScaled lon))

/-- `WeatherCache.invalidateByType`: invalidate by the `type:` substring. -/
def WeatherCache.invalidateByType {α : Type} (c : WeatherCache α)
    (t : String) : ℕ × WeatherCache α :=
  c.invalidate (some (t ++ ":"))

/-- `WeatherCache.cleanup`: one sweep at time `now`, deleting every entry
with `now - timestamp > ttl`. -/
def WeatherCache.cleanup {α : Type} (c : WeatherCache α) (now : ℤ) :
    WeatherCache α :=
  { c with cache := c.cache.filter (fun kv => !decide (kv.2.ttl < now - kv.2.timestamp)) }

/-- Snapshot returned by `getStats` (rates as exact rationals). -/
structure CacheStats where
  hits : ℕ
  misses : ℕ
  entries : ℕ
  memoryUsage : ℕ
  hitRate : ℚ
  avgAccessTime : ℚ
deriving DecidableEq

/-- `WeatherCache.getStats`. -/
def WeatherCache.getStats {α : Type} (c : WeatherCache α) : CacheStats :=
  let entries := c.cache.length
  let memoryUsage := (c.cache.map (fun kv => kv.2.size)).sum
  let totalRequests := c.stats.hits + c.stats.misses
  let hitRate : ℚ := if 0 < totalRequests then (c.stats.hits : ℚ) / (totalRequests : ℚ) else 0
  let avgAccessTime : ℚ :=
    if 0 < c.stats.accessCount then (c.stats.totalAccessTime : ℚ) / (c.stats.accessCount : ℚ) else 0
  { hits := c.stats.hits, misses := c.stats.misses, entries := entries,
    memoryUsage := memoryUsage, hitRate := hitRate, avgAccessTime := avgAccessTime }

/-! ## Operation sequences -/

/-- The number of live entries whose key carries category tag `t`. -/
def countType {α : Type} (t : String) (l : List (String × CacheEntry α)) : ℕ :=
  (l.filter (fun kv => strStartsWith kv.1 (t ++ ":"))).length

/-- Run a sequence of `set` calls, all for category `t`; each element gives
the key, the payload and the call time. -/
def applySets {α : Type} (estimateSize : α → ℕ) (t : String) :
    WeatherCache α → List (String × α × ℤ) → Except String (WeatherCache α)
  | c, [] => .ok c
  | c, (key, data, now) :: rest =>
      match WeatherCache.set estimateSize c key data t now with
      | .error e => .error e
      | .ok c' => applySets estimateSize t c' rest

/-- One cache operation of a mixed `set`/`get` trace. -/
inductive CacheOp (α : Type) where
  | setOp (key : String) (data : α) (t : String)
  | getOp (key : String) (t : String)

/-- Run a timestamped trace of operations. -/
def applyOps {α : Type} (estimateSize : α → ℕ) :
    WeatherCache α → List (ℤ × CacheOp α) → Except String (WeatherCache α)
  | c, [] => .ok c
  | c, (now, .setOp k d t) :: rest =>
      match WeatherCache.set estimateSize c k d t now with
      | .error e => .error e
      | .ok c' => applyOps estimateSize c' rest
  | c, (now, .getOp k t) :: rest => applyOps estimateSize (c.get k t now).2 rest

/-! ## Invariants and concrete fixtures -/

/-- Every entry of `c` satisfies `timestamp ≤ lastAccess ≤ t0`. -/
def EntryInv {α : Type} (c : WeatherCache α) (t0 : ℤ) : Prop :=
  ∀ kv ∈ c.cache, kv.2.timestamp ≤ kv.2.lastAccess ∧ kv.2.lastAccess ≤ t0

/-- The time of the last operation of a trace (`t0` for the empty trace). -/
def lastTime {α : Type} (t0 : ℤ) (ops : List (ℤ × CacheOp α)) : ℤ :=
  ops.foldl (fun _ x => x.1) t0

/-- The `i`-th test key of the `hourly_forecast` category. -/
def mkKey (i : ℕ) : String := (CacheType.HOURLY_FORECAST ++ ":") ++ toString i

/-- A test entry whose `lastAccess` is its index. -/
def mkEntry (i : ℕ) : CacheEntry Unit :=
  { data := (), timestamp := 0, ttl := 1800000, accessCount := 0,
    lastAccess := (i : ℤ), size := 0 }

/-- `n` test entries with keys `mkKey i, mkKey (i+1), ...`. -/
def mkCacheList (i : ℕ) : ℕ → List (String × CacheEntry Unit)
  | 0 => []
  | n + 1 => (mkKey i, mkEntry i) :: mkCacheList (i + 1) n

/-- An `hourly_forecast` store exactly at its capacity of 300 entries. -/
def bigCache : WeatherCache Unit :=
  { cache := mkCacheList 0 300, stats := ⟨0, 0, 0, 0⟩ }

/-- A one-entry store fixture. -/
def oneEntry (key : String) : WeatherCache Unit :=
  { cache := [(key, ⟨(), 0, 1800000, 0, 0, 0⟩)], stats := ⟨0, 0, 0, 0⟩ }

/-- A two-operation trace: a `set` at time 0, then a `get` of the same key
at time 1. -/
def smallTrace : List (ℤ × CacheOp Unit) :=
  [(0, .setOp ("k") () CacheType.CURRENT_WEATHER),
   (1, .getOp ("k") CacheType.CURRENT_WEATHER)]

/-- The state reached by `smallTrace` from the empty cache. -/
def smallTraceFinal : WeatherCache Unit :=
  { cache := [(("k"), ⟨(), 0, 600000, 1, 1, 0⟩)], stats := ⟨1, 0, 0, 1⟩ }

/-- The empty cache after one `get` miss. -/
def afterMiss : WeatherCache Unit :=
  { cache := [], stats := ⟨0, 1, 0, 1⟩ }

/-- `afterMiss` after a `set` of key `k` at time 0. -/
def afterSet : WeatherCache Unit :=
  { cache := [(("k"), ⟨(), 0, 600000, 0, 0, 0⟩)], stats := ⟨0, 1, 0, 1⟩ }

/-- `afterSet` after a `get` hit of key `k` at time 1. -/
def afterHit : WeatherCache Unit :=
  { cache := [(("k"), ⟨(), 0, 600000, 1, 1, 0⟩)], stats := ⟨1, 1, 0, 2⟩ }

/-! ## Helper lemmas: strings -/

theorem charsStartWith_append (p s : List Char) : charsStartWith p (p ++ s) = true := by
  induction p with
  | nil => rfl
  | cons c cs ih => simp [charsStartWith, ih]

theorem strStartsWith_append (p s : String) : strStartsWith (p ++ s) p = true := by
  cases p with
  | mk pd =>
      cases s with
      | mk sd => exact charsStartWith_append pd sd

theorem charsContains_of_charsStartWith (s pat : List Char)
    (h : charsStartWith pat s = true) : charsContains s pat = true := by
  cases s with
  | nil =>
      cases pat with
      | nil => rfl
      | cons c cs => simp [charsStartWith] at h
  | cons c cs => simp [charsContains, h]

theorem strIncludes_of_strStartsWith (s pat : String)
    (h : strStartsWith s pat = true) : strIncludes s pat = true :=
  charsContains_of_charsStartWith s.data pat.data h

/-! ## Helper lemmas: the association-list store -/

theorem mapGet_eq_none_iff {β : Type} (l : List (String × β)) (k : String) :
    mapGet l k = none ↔ k ∉ l.map Prod.fst := by
  induction l with
  | nil => simp [mapGet]
  | cons kv t ih =>
      obtain ⟨k', v⟩ := kv
      by_cases h : k' = k
      · subst h; simp [mapGet]
      · simp [mapGet, h, ih, Ne.symm h]

theorem mapGet_some_mem {β : Type} (l : List (String × β)) (k : String) (v : β)
    (h : mapGet l k = some v) : (k, v) ∈ l := by
  induction l with
  | nil => simp [mapGet] at h
  | cons kv t ih =>
      obtain ⟨k', v'⟩ := kv
      by_cases hk : k' = k
      · subst hk
        simp [mapGet] at h
        simp [h]
      · simp [mapGet, hk] at h
        simp [ih h]

theorem mapGet_mapSet_self {β : Type} (l : List (String × β)) (k : String) (v : β) :
    mapGet (mapSet l k v) k = some v := by
  induction l with
  | nil => simp [mapSet, mapGet]
  | cons kv t ih =>
      obtain ⟨k', v'⟩ := kv
      by_cases hk : k' = k
      · subst hk; simp [mapSet, mapGet]
      · simp [mapSet, hk, mapGet, ih]

theorem mapSet_map_fst_of_some {β : Type} (l : List (String × β)) (k : String)
    (e v : β) (h : mapGet l k = some e) :
    (mapSet l k v).map Prod.fst = l.map Prod.fst := by
  induction l with
  | nil => simp [mapGet] at h
  | cons kv t ih =>
      obtain ⟨k', v'⟩ := kv
      by_cases hk : k' = k
      · subst hk; simp [mapSet]
      · simp [mapGet, hk] at h
        simp [mapSet, hk, ih h]

theorem mem_mapSet {β : Type} (l : List (String × β)) (k : String) (v : β)
    (kv : String × β) (h : kv ∈ mapSet l k v) : kv = (k, v) ∨ kv ∈ l := by
  induction l with
  | nil => simp [mapSet] at h; simp [h]
  | cons kv' t ih =>
      obtain ⟨k', v'⟩ := kv'
      by_cases hk : k' = k
      · subst hk
        simp [mapSet] at h
        rcases h with h | h
        · exact Or.inl h
        · exact Or.inr (List.mem_cons_of_mem _ h)
      · simp [mapSet, hk] at h
        rcases h with h | h
        · exact Or.inr (by simp [h])
        · rcases ih h with h' | h'
          · exact Or.inl h'
          · exact Or.inr (List.mem_cons_of_mem _ h')

theorem mem_mapSet_of_ne {β : Type} (l : List (String × β)) (k : String) (v : β)
    (kv : String × β) (hm : kv ∈ l) (hne : kv.1 ≠ k) : kv ∈ mapSet l k v := by
  induction l with
  | nil => simp at hm
  | cons kv' t ih =>
      obtain ⟨k', v'⟩ := kv'
      by_cases hk : k' = k
      · subst hk
        rcases List.mem_cons.1 hm with h | h
        · exact absurd (show kv.1 = k' by rw [h]) hne
        · simpa [mapSet] using Or.inr h
      · simp [mapSet, hk]
        rcases List.mem_cons.1 hm with h | h
        · exact Or.inl h
        · exact Or.inr (ih h)

theorem mapDelete_sublist {β : Type} (l : List (String × β)) (k : String) :
    List.Sublist (mapDelete l k) l := by
  induction l with
  | nil => simp [mapDelete]
  | cons kv t ih =>
      obtain ⟨k', v⟩ := kv
      by_cases hk : k' = k
      · subst hk; simp [mapDelete]
      · simpa [mapDelete, hk] using ih.cons₂ ((k', v))

theorem mem_mapDelete_of_ne {β : Type} (l : List (String × β)) (k : String)
    (kv : String × β) (hm : kv ∈ l) (hne : kv.1 ≠ k) : kv ∈ mapDelete l k := by
  induction l with
  | nil => simp at hm
  | cons kv' t ih =>
      obtain ⟨k', v'⟩ := kv'
      by_cases hk : k' = k
      · subst hk
        rcases List.mem_cons.1 hm with h | h
        · exact absurd (show kv.1 = k' by rw [h]) hne
        · simpa [mapDelete] using h
      · simp [mapDelete, hk]
        rcases List.mem_cons.1 hm with h | h
        · exact Or.inl h
        · exact Or.inr (ih h)

theorem mapGet_mapDelete_self {β : Type} (l : List (String × β)) (k : String)
    (hnd : (l.map Prod.fst).Nodup) : mapGet (mapDelete l k) k = none := by
  induction l with
  | nil => simp [mapDelete, mapGet]
  | cons kv t ih =>
      obtain ⟨k', v⟩ := kv
      rw [List.map_cons, List.nodup_cons] at hnd
      by_cases hk : k' = k
      · subst hk
        simpa [mapDelete] using (mapGet_eq_none_iff t k').2 hnd.1
      · simp [mapDelete, hk, mapGet, ih hnd.2]

theorem length_filter_mapDelete_lt {β : Type} (l : List (String × β)) (k : String)
    (v : β) (pk : String → Bool) (hm : (k, v) ∈ l) (hp : pk k = true) :
    ((mapDelete l k).filter (fun kv => pk kv.1)).length <
      (l.filter (fun kv => pk kv.1)).length := by
  induction l with
  | nil => simp at hm
  | cons kv' t ih =>
      obtain ⟨k', v'⟩ := kv'
      by_cases hk : k' = k
      · simp only [mapDelete, if_pos hk]
        rw [List.filter_cons_of_pos]
        · exact Nat.lt_succ_self _
        · simpa [hk] using hp
      · have hm' : (k, v) ∈ t := by
          rcases List.mem_cons.1 hm with h | h
          · exact absurd (congrArg Prod.fst h).symm hk
          · exact h
        simp only [mapDelete, if_neg hk]
        by_cases hpk' : pk k' = true
        · simpa [List.filter_cons, hpk'] using ih hm'
        · simp only [List.filter_cons]
          simp only [Bool.not_eq_true] at hpk'
          simp [hpk']
          exact ih hm'

theorem length_filter_mapSet_le {β : Type} (l : List (String × β)) (k : String)
    (v : β) (pk : String → Bool) :
    ((mapSet l k v).filter (fun kv => pk kv.1)).length ≤
      (l.filter (fun kv => pk kv.1)).length + 1 := by
  induction l with
  | nil =>
      by_cases hp : pk k = true <;> simp [mapSet, List.filter_cons, hp]
  | cons kv' t ih =>
      obtain ⟨k', v'⟩ := kv'
      by_cases hk : k' = k
      · subst hk
        by_cases hp : pk k' = true <;>
          simp [mapSet, List.filter_cons, hp, Nat.le_succ]
      · by_cases hp : pk k' = true
        · simpa [mapSet, hk, List.filter_cons, hp] using ih
        · simp only [Bool.not_eq_true] at hp
          simpa [mapSet, hk, List.filter_cons, hp] using ih

/-! ## Helper lemmas: LRU reduction, configuration, capacity -/

theorem reduceLru_mem {α : Type} (e : String × CacheEntry α)
    (l : List (String × CacheEntry α)) : reduceLru e l ∈ e :: l := by
  induction l generalizing e with
  | nil => simp [reduceLru]
  | cons current rest ih =>
      simp only [reduceLru]
      rcases List.mem_cons.1 (ih (if current.2.lastAccess < e.2.lastAccess then current else e)) with h | h
      · rw [h]
        by_cases hc : current.2.lastAccess < e.2.lastAccess
        · simp [hc]
        · simp [hc]
      · exact List.mem_cons_of_mem _ (List.mem_cons_of_mem _ h)

theorem reduceLru_min {α : Type} (e : String × CacheEntry α)
    (l : List (String × CacheEntry α)) :
    ∀ x ∈ e :: l, (reduceLru e l).2.lastAccess ≤ x.2.lastAccess := by
  induction l generalizing e with
  | nil =>
      intro x hx
      rcases List.mem_cons.1 hx with h | h
      · rw [h]; exact le_refl _
      · simp at h
  | cons current rest ih =>
      intro x hx
      have hacc : (if current.2.lastAccess < e.2.lastAccess then current else e).2.lastAccess
          ≤ e.2.lastAccess ∧
          (if current.2.lastAccess < e.2.lastAccess then current else e).2.lastAccess
          ≤ current.2.lastAccess := by
        by_cases hc : current.2.lastAccess < e.2.lastAccess
        · simp [hc]; exact le_of_lt hc
        · simp [hc]; exact le_of_not_lt hc
      rcases List.mem_cons.1 hx with h | h
      · rw [h]
        calc (reduceLru e (current :: rest)).2.lastAccess
            ≤ _ := by
              simpa [reduceLru] using
                ih (if current.2.lastAccess < e.2.lastAccess then current else e) _ (List.mem_cons_self _ _)
          _ ≤ e.2.lastAccess := hacc.1
      · rcases List.mem_cons.1 h with h' | h'
        · rw [h']
          calc (reduceLru e (current :: rest)).2.lastAccess
              ≤ _ := by
                simpa [reduceLru] using
                  ih (if current.2.lastAccess < e.2.lastAccess then current else e) _ (List.mem_cons_self _ _)
            _ ≤ current.2.lastAccess := hacc.2
        · simpa [reduceLru] using
            ih (if current.2.lastAccess < e.2.lastAccess then current else e) x
              (List.mem_cons_of_mem _ h')

theorem reduceLru_of_min {α : Type} (e : String × CacheEntry α)
    (l : List (String × CacheEntry α))
    (h : ∀ x ∈ l, ¬ x.2.lastAccess < e.2.lastAccess) : reduceLru e l = e := by
  induction l with
  | nil => rfl
  | cons current rest ih =>
      have hc : ¬ current.2.lastAccess < e.2.lastAccess :=
        h current (List.mem_cons_self _ _)
      simp only [reduceLru, if_neg hc]
      exact ih (fun x hx => h x (List.mem_cons_of_mem _ hx))

theorem configs_maxSize_pos (t : String) (cfg : CacheConfig)
    (h : configs t = some cfg) : 1 ≤ cfg.maxSize := by
  unfold configs at h
  split at h
  · cases h; decide
  · split at h
    · cases h; decide
    · split at h
      · cases h; decide
      · split at h
        · cases h; decide
        · cases h

theorem ensureCapacity_below {α : Type} (cache : List (String × CacheEntry α))
    (t : String) (config : CacheConfig) (h : countType t cache < config.maxSize) :
    ensureCapacity cache t config = .ok cache := by
  unfold ensureCapacity
  rw [if_neg]
  exact Nat.not_le_of_lt h

theorem ensureCapacity_at_capacity {α : Type} (cache : List (String × CacheEntry α))
    (t : String) (config : CacheConfig) (hpos : 1 ≤ config.maxSize)
    (hfull : config.maxSize ≤ countType t cache) :
    ∃ victim, victim ∈ cache.filter (fun kv => strStartsWith kv.1 (t ++ ":")) ∧
      (∀ kv ∈ cache.filter (fun kv => strStartsWith kv.1 (t ++ ":")),
        victim.2.lastAccess ≤ kv.2.lastAccess) ∧
      ensureCapacity cache t config = .ok (mapDelete cache victim.1) := by
  have hne : cache.filter (fun kv => strStartsWith kv.1 (t ++ ":")) ≠ [] := by
    intro hnil
    have : countType t cache = 0 := by simp [countType, hnil]
    omega
  obtain ⟨e, rest, hcons⟩ := List.exists_cons_of_ne_nil hne
  refine ⟨reduceLru e rest, ?_, ?_, ?_⟩
  · rw [hcons]; exact reduceLru_mem e rest
  · rw [hcons]; exact reduceLru_min e rest
  · unfold ensureCapacity
    rw [if_pos (by simpa [countType] using hfull)]
    rw [hcons]

/-! ## Helper lemmas: characterizing `set` -/

theorem set_spec {α : Type} (es : α → ℕ) (c : WeatherCache α) (key : String)
    (d : α) (t : String) (now : ℤ) (cfg : CacheConfig) (hc : configs t = some cfg) :
    (countType t c.cache < cfg.maxSize →
       WeatherCache.set es c key d t now =
         .ok { c with cache := mapSet c.cache key ⟨d, now, cfg.ttl, 0, now, es d⟩ }) ∧
    (cfg.maxSize ≤ countType t c.cache →
       ∃ victim, victim ∈ c.cache.filter (fun kv => strStartsWith kv.1 (t ++ ":")) ∧
         (∀ kv ∈ c.cache.filter (fun kv => strStartsWith kv.1 (t ++ ":")),
            victim.2.lastAccess ≤ kv.2.lastAccess) ∧
         WeatherCache.set es c key d t now =
           .ok { c with cache :=
                   mapSet (mapDelete c.cache victim.1) key ⟨d, now, cfg.ttl, 0, now, es d⟩ }) := by
  constructor
  · intro hlt
    simp only [WeatherCache.set, hc, ensureCapacity_below c.cache t cfg hlt]
  · intro hge
    obtain ⟨victim, hvmem, hvmin, hens⟩ :=
      ensureCapacity_at_capacity c.cache t cfg (configs_maxSize_pos t cfg hc) hge
    refine ⟨victim, hvmem, hvmin, ?_⟩
    simp only [WeatherCache.set, hc, hens]

/-- A `set` for a configured category never hits the throwing path, and its
effect on the category's entry count is bounded. -/
theorem set_capacity_step {α : Type} (es : α → ℕ) (c : WeatherCache α)
    (key : String) (d : α) (t : String) (now : ℤ) (cfg : CacheConfig)
    (hc : configs t = some cfg) (hle : countType t c.cache ≤ cfg.maxSize) :
    ∃ c', WeatherCache.set es c key d t now = .ok c' ∧
      countType t c'.cache ≤ cfg.maxSize := by
  rcases Nat.lt_or_ge (countType t c.cache) cfg.maxSize with hlt | hge
  · refine ⟨_, (set_spec es c key d t now cfg hc).1 hlt, ?_⟩
    have h1 := length_filter_mapSet_le c.cache key
      (⟨d, now, cfg.ttl, 0, now, es d⟩ : CacheEntry α)
      (fun s => strStartsWith s (t ++ ":"))
    beta_reduce at h1
    simp only [countType] at hlt ⊢
    omega
  · obtain ⟨victim, hvmem, hvmin, hset⟩ := (set_spec es c key d t now cfg hc).2 hge
    refine ⟨_, hset, ?_⟩
    have hvic := List.mem_filter.1 hvmem
    have h3 := length_filter_mapDelete_lt c.cache victim.1 victim.2
      (fun s => strStartsWith s (t ++ ":")) (by simpa using hvic.1) hvic.2
    have h4 := length_filter_mapSet_le (mapDelete c.cache victim.1) key
      (⟨d, now, cfg.ttl, 0, now, es d⟩ : CacheEntry α)
      (fun s => strStartsWith s (t ++ ":"))
    beta_reduce at h3 h4
    simp only [countType] at hle ⊢
    omega

/-! ## Helper lemmas: the 300-entry fixture -/

theorem mkCacheList_length (n i : ℕ) : (mkCacheList i n).length = n := by
  induction n generalizing i with
  | zero => rfl
  | succ n ih => simp [mkCacheList, ih]

theorem mkCacheList_mem (n i : ℕ) (kv : String × CacheEntry Unit)
    (h : kv ∈ mkCacheList i n) :
    strStartsWith kv.1 (CacheType.HOURLY_FORECAST ++ ":") = true ∧
      (i : ℤ) ≤ kv.2.lastAccess := by
  induction n generalizing i with
  | zero => simp [mkCacheList] at h
  | succ n ih =>
      rcases List.mem_cons.1 h with h' | h'
      · rw [h']
        exact ⟨strStartsWith_append _ _, by simp [mkEntry]⟩
      · obtain ⟨hsw, hle⟩ := ih (i + 1) h'
        refine ⟨hsw, le_trans ?_ hle⟩
        exact_mod_cast Nat.le_succ i

theorem bigCache_filter :
    bigCache.cache.filter
      (fun kv => strStartsWith kv.1 (CacheType.HOURLY_FORECAST ++ ":")) =
      mkCacheList 0 300 :=
  List.filter_eq_self.2 (fun kv hkv => (mkCacheList_mem 300 0 kv hkv).1)

theorem bigCache_countType :
    countType CacheType.HOURLY_FORECAST bigCache.cache = 300 := by
  show (bigCache.cache.filter
      (fun kv => strStartsWith kv.1 (CacheType.HOURLY_FORECAST ++ ":"))).length = 300
  rw [bigCache_filter, mkCacheList_length]

theorem bigCache_ensureCapacity :
    ensureCapacity bigCache.cache CacheType.HOURLY_FORECAST ⟨1800000, 300, 600000⟩ =
      .ok (mkCacheList 1 299) := by
  have hcons : mkCacheList 0 300 = (mkKey 0, mkEntry 0) :: mkCacheList 1 299 := rfl
  have hred : reduceLru (mkKey 0, mkEntry 0) (mkCacheList 1 299) = (mkKey 0, mkEntry 0) := by
    refine reduceLru_of_min _ _ (fun x hx => ?_)
    have h1 := (mkCacheList_mem 299 1 x hx).2
    simp only [mkEntry]
    omega
  unfold ensureCapacity
  simp only [bigCache_filter, mkCacheList_length, hcons, hred]
  rw [if_pos (by simp [← hcons, mkCacheList_length])]
  have hdel : mapDelete ((mkKey 0, mkEntry 0) :: mkCacheList 1 299) (mkKey 0) =
      mkCacheList 1 299 := by simp [mapDelete]
  show Except.ok (mapDelete (mkCacheList 0 300) (mkKey 0)) = Except.ok (mkCacheList 1 299)
  rw [hcons, hdel]

/-! ## Helper lemmas: the recency invariant -/

theorem ensureCapacity_ok_subset {α : Type} (cache : List (String × CacheEntry α))
    (t : String) (config : CacheConfig) (cache' : List (String × CacheEntry α))
    (h : ensureCapacity cache t config = .ok cache') :
    ∀ kv ∈ cache', kv ∈ cache := by
  simp only [ensureCapacity] at h
  split at h
  · split at h
    · cases h
    · cases h
      exact fun kv hkv => (mapDelete_sublist cache _).subset hkv
  · cases h
    exact fun kv hkv => hkv

theorem get_inv {α : Type} (c : WeatherCache α) (key ty : String) (now t0 : ℤ)
    (hinv : EntryInv c t0) (hle : t0 ≤ now) :
    EntryInv (c.get key ty now).2 now := by
  intro kv hkv
  rcases hmg : mapGet c.cache key with _ | e
  · simp only [WeatherCache.get, hmg] at hkv
    obtain ⟨h1, h2⟩ := hinv kv hkv
    exact ⟨h1, le_trans h2 hle⟩
  · simp only [WeatherCache.get, hmg] at hkv
    by_cases hexp : e.ttl < now - e.timestamp
    · rw [if_pos hexp] at hkv
      obtain ⟨h1, h2⟩ := hinv kv ((mapDelete_sublist c.cache key).subset hkv)
      exact ⟨h1, le_trans h2 hle⟩
    · rw [if_neg hexp] at hkv
      rcases mem_mapSet _ _ _ _ hkv with h | h
      · obtain ⟨h1, h2⟩ := hinv (key, e) (mapGet_some_mem c.cache key e hmg)
        rw [h]
        exact ⟨le_trans h1 (le_trans h2 hle), le_refl now⟩
      · obtain ⟨h1, h2⟩ := hinv kv h
        exact ⟨h1, le_trans h2 hle⟩

theorem set_inv {α : Type} (es : α → ℕ) (c : WeatherCache α) (key : String)
    (d : α) (t : String) (now t0 : ℤ) (c₂ : WeatherCache α)
    (hinv : EntryInv c t0) (hle : t0 ≤ now)
    (hset : WeatherCache.set es c key d t now = .ok c₂) :
    EntryInv c₂ now := by
  rcases hcfg : configs t with _ | cfg
  · simp only [WeatherCache.set, hcfg] at hset
    cases hset
    exact fun kv hkv => ⟨(hinv kv hkv).1, le_trans (hinv kv hkv).2 hle⟩
  · rcases hens : ensureCapacity c.cache t cfg with e' | cache'
    · simp only [WeatherCache.set, hcfg, hens] at hset
      cases hset
    · simp only [WeatherCache.set, hcfg, hens] at hset
      cases hset
      intro kv hkv
      rcases mem_mapSet _ _ _ _ hkv with h | h
      · rw [h]
        exact ⟨le_refl now, le_refl now⟩
      · have hmem := ensureCapacity_ok_subset c.cache t cfg cache' hens kv h
        exact ⟨(hinv kv hmem).1, le_trans (hinv kv hmem).2 hle⟩

theorem applyOps_inv {α : Type} (es : α → ℕ) (ops : List (ℤ × CacheOp α)) :
    ∀ (c : WeatherCache α) (t0 : ℤ), EntryInv c t0 →
      List.Chain (fun a b => a ≤ b) t0 (ops.map Prod.fst) →
      ∀ c', applyOps es c ops = .ok c' → EntryInv c' (lastTime t0 ops) := by
  induction ops with
  | nil =>
      intro c t0 hinv _ c' happ
      cases happ
      exact hinv
  | cons x rest ih =>
      obtain ⟨now, op⟩ := x
      intro c t0 hinv hchain c' happ
      rw [List.map_cons, List.chain_cons] at hchain
      obtain ⟨hle, hchain'⟩ := hchain
      cases op with
      | setOp k d t =>
          unfold applyOps at happ
          rcases hset : WeatherCache.set es c k d t now with e' | c₁
          · rw [hset] at happ; cases happ
          · rw [hset] at happ
            exact ih c₁ now (set_inv es c k d t now t0 c₁ hinv hle hset) hchain' c' happ
      | getOp k ty =>
          unfold applyOps at happ
          exact ih (c.get k ty now).2 now (get_inv c k ty now t0 hinv hle) hchain' c' happ

/-! ## Claims -/

theorem applySets_capacity {α : Type} (es : α → ℕ) (t : String) (cfg : CacheConfig)
    (hc : configs t = some cfg) :
    ∀ (ops : List (String × α × ℤ)) (c : WeatherCache α),
      countType t c.cache ≤ cfg.maxSize →
      ∃ c', applySets es t c ops = .ok c' ∧ countType t c'.cache ≤ cfg.maxSize := by
  intro ops
  induction ops with
  | nil => exact fun c h => ⟨c, rfl, h⟩
  | cons x rest ih =>
      obtain ⟨key, d, now⟩ := x
      intro c h
      obtain ⟨c₁, hset, h₁⟩ := set_capacity_step es c key d t now cfg hc h
      obtain ⟨c', happ, h'⟩ := ih c₁ h₁
      refine ⟨c', ?_, h'⟩
      simp only [applySets, hset, happ]

/-- C1: starting from an empty cache, after any sequence of `set` calls for a
single configured category, the number of live entries whose key carries that
category's tag never exceeds the category's `maxSize` (the bound holds for
every trace, hence for every prefix of a trace, i.e. at every intermediate
state). -/
theorem capacity_bound {α : Type} (es : α → ℕ) (t : String) (cfg : CacheConfig)
    (hc : configs t = some cfg) (ops : List (String × α × ℤ)) :
    ∃ c', applySets es t (emptyCache : WeatherCache α) ops = .ok c' ∧
      countType t c'.cache ≤ cfg.maxSize :=
  applySets_capacity es t cfg hc ops emptyCache (by simp [countType, emptyCache])

/-- Witness for C1 at a concrete one-element trace of `forecast` sets. -/
theorem capacity_bound_witness :
    ∃ c', applySets (fun _ : Unit => 0) CacheType.FORECAST emptyCache
        [(("forecast:48.8566,2.3522"), (), 0)] = .ok c' ∧
      countType CacheType.FORECAST c'.cache ≤ 500 :=
  capacity_bound (fun _ => 0) CacheType.FORECAST ⟨3600000, 500, 900000⟩ (by rfl)
    [(("forecast:48.8566,2.3522"), (), 0)]

/-- C2 counterexample: `invalidateByType(FORECAST)` matches by substring
(`key.includes`), so it deletes an `hourly_forecast` entry — a key that does
not belong to category `forecast` — refuting "leaves every category-B entry
untouched". -/
theorem invalidation_scoping_cex :
    strStartsWith ("hourly_forecast:48.8566,2.3522") (CacheType.FORECAST ++ ":") = false ∧
    (WeatherCache.invalidateByType (oneEntry ("hourly_forecast:48.8566,2.3522"))
        CacheType.FORECAST).2.cache = [] ∧
    (WeatherCache.invalidateByType (oneEntry ("hourly_forecast:48.8566,2.3522"))
        CacheType.FORECAST).1 = 1 := by
  refine ⟨by decide, by decide, by decide⟩

/-- C2 (amended): `invalidateByType A` removes exactly the entries whose key
contains the substring `A ++ ":"` — this removes every true category-A key,
but also keys of other categories containing that substring (e.g. `forecast:`
inside `hourly_forecast:` keys); `invalidateByLocation` removes exactly the
entries whose key contains the rounded `lat,lon` fragment as a substring. -/
theorem invalidation_scoping {α : Type} (c : WeatherCache α) (t : String)
    (lat lon : ℚ) :
    (∀ kv ∈ c.cache,
        (kv ∈ (c.invalidateByType t).2.cache ↔ strIncludes kv.1 (t ++ ":") = false)) ∧
    (∀ kv ∈ c.cache, strStartsWith kv.1 (t ++ ":") = true →
        kv ∉ (c.invalidateByType t).2.cache) ∧
    ((c.invalidateByType t).1 =
        (c.cache.filter (fun kv => strIncludes kv.1 (t ++ ":"))).length) ∧
    (∀ kv ∈ c.cache,
        (kv ∈ (c.invalidateByLocation lat lon).2.cache ↔
          strIncludes kv.1
            (renderScaled (roundCoordScaled lat) ++ "," ++
              renderScaled (roundCoordScaled lon)) = false)) := by
  refine ⟨?_, ?_, rfl, ?_⟩
  · intro kv hkv
    simp [WeatherCache.invalidateByType, WeatherCache.invalidate, List.mem_filter, hkv]
  · intro kv hkv hsw hmem
    have hinc := strIncludes_of_strStartsWith kv.1 (t ++ ":") hsw
    simp [WeatherCache.invalidateByType, WeatherCache.invalidate, List.mem_filter,
      hinc] at hmem
  · intro kv hkv
    simp [WeatherCache.invalidateByLocation, WeatherCache.invalidate, List.mem_filter, hkv]

/-- Witness for C2: a `geocoding` entry whose key does not contain
`forecast:` survives `invalidateByType FORECAST`. -/
theorem invalidation_scoping_witness :
    (("geocoding:1,2"), (⟨(), 0, 1800000, 0, 0, 0⟩ : CacheEntry Unit)) ∈
      ((oneEntry ("geocoding:1,2")).invalidateByType CacheType.FORECAST).2.cache :=
  ((invalidation_scoping (oneEntry ("geocoding:1,2")) CacheType.FORECAST 0 0).1
      (("geocoding:1,2"), ⟨(), 0, 1800000, 0, 0, 0⟩) (by simp [oneEntry])).2 (by decide)

/-- C3: for an entry reachable in the store, `get` returns the payload while
`now - timestamp ≤ ttl`; once `now - timestamp > ttl` it returns nothing,
deletes the entry and counts a miss; and one `cleanup` sweep at `now` keeps
exactly the entries with `now - timestamp ≤ ttl`, deleting every other one
and touching nothing else. -/
theorem ttl_correctness {α : Type} (c : WeatherCache α) (key ty : String)
    (e : CacheEntry α) (now : ℤ)
    (hnd : (c.cache.map Prod.fst).Nodup)
    (hget : mapGet c.cache key = some e) :
    (now - e.timestamp ≤ e.ttl → (c.get key ty now).1 = some e.data) ∧
    (e.ttl < now - e.timestamp →
       (c.get key ty now).1 = none ∧
       mapGet (c.get key ty now).2.cache key = none ∧
       (c.get key ty now).2.stats.misses = c.stats.misses + 1) ∧
    (∀ kv ∈ c.cache, (kv ∈ (c.cleanup now).cache ↔ ¬ kv.2.ttl < now - kv.2.timestamp)) ∧
    (∀ kv ∈ (c.cleanup now).cache, kv ∈ c.cache) := by
  refine ⟨?_, ?_, ?_, ?_⟩
  · intro h
    simp only [WeatherCache.get, hget, if_neg (not_lt.mpr h)]
  · intro h
    refine ⟨?_, ?_, ?_⟩
    · simp only [WeatherCache.get, hget, if_pos h]
    · simp only [WeatherCache.get, hget, if_pos h]
      exact mapGet_mapDelete_self c.cache key hnd
    · simp only [WeatherCache.get, hget, if_pos h]
  · intro kv hkv
    simp [WeatherCache.cleanup, List.mem_filter, hkv]
  · intro kv hkv
    simp only [WeatherCache.cleanup] at hkv
    exact (List.mem_filter.1 hkv).1

/-- Witness for C3: a fresh entry is returned at `now = 5` with `ttl`
1800000. -/
theorem ttl_correctness_witness :
    ((oneEntry ("k")).get ("k") CacheType.HOURLY_FORECAST 5).1 = some () :=
  (ttl_correctness (oneEntry ("k")) ("k") CacheType.HOURLY_FORECAST
      ⟨(), 0, 1800000, 0, 0, 0⟩ 5 (by decide) (by decide)).1 (by decide)

/-- C4: when a category sits exactly at its capacity and `set` is called with
a new key of that category, the evicted entry is one of that category with
minimal `lastAccess` (the choice is deterministic: `set` is a function, and
the victim is the first minimal entry in store order), and every entry of any
other category survives into the resulting store. -/
theorem lru_selection {α : Type} (es : α → ℕ) (c : WeatherCache α) (t key : String)
    (d : α) (now : ℤ) (cfg : CacheConfig)
    (hc : configs t = some cfg)
    (hfull : countType t c.cache = cfg.maxSize)
    (hkey : strStartsWith key (t ++ ":") = true)
    (_hnew : mapGet c.cache key = none) :
    ∃ victim,
      victim ∈ c.cache.filter (fun kv => strStartsWith kv.1 (t ++ ":")) ∧
      (∀ kv ∈ c.cache.filter (fun kv => strStartsWith kv.1 (t ++ ":")),
         victim.2.lastAccess ≤ kv.2.lastAccess) ∧
      WeatherCache.set es c key d t now =
        .ok { c with cache := (mapSet (mapDelete c.cache victim.1) key
                ⟨d, now, cfg.ttl, 0, now, es d⟩) } ∧
      (∀ kv ∈ c.cache, strStartsWith kv.1 (t ++ ":") = false →
         kv ∈ mapSet (mapDelete c.cache victim.1) key ⟨d, now, cfg.ttl, 0, now, es d⟩) := by
  obtain ⟨victim, hvmem, hvmin, hset⟩ :=
    (set_spec es c key d t now cfg hc).2 (le_of_eq hfull.symm)
  refine ⟨victim, hvmem, hvmin, hset, ?_⟩
  intro kv hkv hother
  have hvic : strStartsWith victim.1 (t ++ ":") = true := (List.mem_filter.1 hvmem).2
  have hne1 : kv.1 ≠ victim.1 := by
    intro h
    rw [h, hvic] at hother
    cases hother
  have hne2 : kv.1 ≠ key := by
    intro h
    rw [h, hkey] at hother
    cases hother
  exact mem_mapSet_of_ne _ _ _ _ (mem_mapDelete_of_ne _ _ _ hkv hne1) hne2

/-- Witness for C4 at the 300-entry `hourly_forecast` fixture. -/
theorem lru_selection_witness :
    ∃ victim,
      victim ∈ bigCache.cache.filter
          (fun kv => strStartsWith kv.1 (CacheType.HOURLY_FORECAST ++ ":")) ∧
      (∀ kv ∈ bigCache.cache.filter
          (fun kv => strStartsWith kv.1 (CacheType.HOURLY_FORECAST ++ ":")),
         victim.2.lastAccess ≤ kv.2.lastAccess) ∧
      WeatherCache.set (fun _ : Unit => 0) bigCache ("hourly_forecast:") ()
          CacheType.HOURLY_FORECAST 1000 =
        .ok { bigCache with cache := (mapSet (mapDelete bigCache.cache victim.1)
                ("hourly_forecast:") ⟨(), 1000, 1800000, 0, 1000, 0⟩) } ∧
      (∀ kv ∈ bigCache.cache,
         strStartsWith kv.1 (CacheType.HOURLY_FORECAST ++ ":") = false →
         kv ∈ mapSet (mapDelete bigCache.cache victim.1) ("hourly_forecast:")
               ⟨(), 1000, 1800000, 0, 1000, 0⟩) :=
  lru_selection (fun _ : Unit => 0) bigCache CacheType.HOURLY_FORECAST
    ("hourly_forecast:") () 1000 ⟨1800000, 300, 600000⟩ (by rfl) bigCache_countType
    (by decide)
    (by set_option maxRecDepth 4000 in decide)

/-- C5: `generateKey` is deterministic — identical inputs give the identical
string — and coordinates that round to the same 4-decimal scaled values give
the identical string (the rounding collapse, so a later `get` with such
perturbed coordinates and equal parameters computes the same key). -/
theorem key_determinism (md5hex8 : String → String) (p p' : CacheKeyParams)
    (ht : p.type = p'.type) (hp : p.parameters = p'.parameters)
    (hlat : roundCoordScaled p.latitude = roundCoordScaled p'.latitude)
    (hlon : roundCoordScaled p.longitude = roundCoordScaled p'.longitude) :
    generateKey md5hex8 p = generateKey md5hex8 p ∧
    generateKey md5hex8 p = generateKey md5hex8 p' := by
  refine ⟨rfl, ?_⟩
  simp only [generateKey, ht, hp, hlat, hlon]

/-- Witness for C5: the spec's own example pair, 48.8566 vs 48.85661 and
2.3522 vs 2.35219, collapses to one key. -/
theorem key_determinism_witness :
    generateKey (fun s => s) ⟨48.8566, 2.3522, CacheType.CURRENT_WEATHER, none⟩ =
      generateKey (fun s => s) ⟨48.85661, 2.35219, CacheType.CURRENT_WEATHER, none⟩ :=
  (key_determinism (fun s => s)
    ⟨48.8566, 2.3522, CacheType.CURRENT_WEATHER, none⟩
    ⟨48.85661, 2.35219, CacheType.CURRENT_WEATHER, none⟩
    rfl rfl (by norm_num [roundCoordScaled, jsRound]) (by norm_num [roundCoordScaled, jsRound])).2

/-- C6 counterexample: `set` with an unconfigured category does not raise any
exception — in the embedding no `.error` is produced; it logs and returns
`.ok` with the cache unchanged. -/
theorem unknown_category_cex :
    configs ("bogus_type") = none ∧
    WeatherCache.set (fun _ : Unit => 0) emptyCache ("k") () ("bogus_type") 0 =
      .ok emptyCache :=
  ⟨rfl, rfl⟩

/-- C6 (amended): `set` with a category that has no configured policy does
not raise; it logs an error and returns normally, leaving the cache state
completely unchanged (in particular it does not insert under a default
policy). -/
theorem unknown_category_silent {α : Type} (es : α → ℕ) (c : WeatherCache α)
    (key : String) (d : α) (t : String) (now : ℤ) (h : configs t = none) :
    WeatherCache.set es c key d t now = .ok c := by
  simp only [WeatherCache.set, h]

/-- Witness for C6 at a concrete unknown category string. -/
theorem unknown_category_silent_witness :
    WeatherCache.set (fun _ : Unit => 0) (oneEntry ("k")) ("x") ()
      ("does_not_exist") 5 = .ok (oneEntry ("k")) :=
  unknown_category_silent (fun _ : Unit => 0) (oneEntry ("k")) ("x") ()
    ("does_not_exist") 5 (by rfl)

/-- C7 counterexample: with the `hourly_forecast` category exactly at its
capacity of 300 and the key `mkKey 1` already present, `set` on that key
still runs the LRU eviction first (removing `mkKey 0`) and only then
overwrites, so the store shrinks from 300 to 299 entries — refuting "leaves
the total store size unchanged". -/
theorem idempotent_overwrite_cex :
    mapGet bigCache.cache (mkKey 1) = some (mkEntry 1) ∧
    bigCache.cache.length = 300 ∧
    WeatherCache.set (fun _ : Unit => 0) bigCache (mkKey 1) ()
        CacheType.HOURLY_FORECAST 1000 =
      .ok { bigCache with cache := ((mkKey 1, ⟨(), 1000, 1800000, 0, 1000, 0⟩) ::
              mkCacheList 2 298) } ∧
    ((mkKey 1, (⟨(), 1000, 1800000, 0, 1000, 0⟩ : CacheEntry Unit)) ::
        mkCacheList 2 298).length = 299 := by
  have hcons : mkCacheList 0 300 =
      (mkKey 0, mkEntry 0) :: (mkKey 1, mkEntry 1) :: mkCacheList 2 298 := rfl
  refine ⟨?_, ?_, ?_, ?_⟩
  · show mapGet (mkCacheList 0 300) (mkKey 1) = some (mkEntry 1)
    rw [hcons]
    simp [mapGet, show ¬ (mkKey 0 = mkKey 1) by decide]
  · show (mkCacheList 0 300).length = 300
    exact mkCacheList_length 300 0
  · have hcfg : configs CacheType.HOURLY_FORECAST = some ⟨1800000, 300, 600000⟩ := rfl
    simp only [WeatherCache.set, hcfg, bigCache_ensureCapacity]
    have hcons1 : mkCacheList 1 299 = (mkKey 1, mkEntry 1) :: mkCacheList 2 298 := rfl
    rw [hcons1]
    simp [mapSet]
  · simp [mkCacheList_length]

/-- C7 (amended): `set` on a key already present replaces the payload and
resets `timestamp`/`lastAccess` to the call time without creating a
duplicate (the key multiset of the store is unchanged), and — provided the
key's category is strictly below capacity, so that no LRU eviction runs —
the total store size is unchanged; at capacity the eviction may first remove
another entry, shrinking the store by one. -/
theorem idempotent_overwrite {α : Type} (es : α → ℕ) (c : WeatherCache α)
    (key : String) (d : α) (t : String) (now : ℤ) (cfg : CacheConfig)
    (e : CacheEntry α)
    (hc : configs t = some cfg)
    (hbelow : countType t c.cache < cfg.maxSize)
    (hmem : mapGet c.cache key = some e) :
    ∃ c', WeatherCache.set es c key d t now = .ok c' ∧
      c'.cache.map Prod.fst = c.cache.map Prod.fst ∧
      c'.cache.length = c.cache.length ∧
      mapGet c'.cache key = some ⟨d, now, cfg.ttl, 0, now, es d⟩ ∧
      c'.stats = c.stats := by
  refine ⟨_, (set_spec es c key d t now cfg hc).1 hbelow, ?_, ?_, ?_, rfl⟩
  · exact mapSet_map_fst_of_some c.cache key e _ hmem
  · have h := congrArg List.length
      (mapSet_map_fst_of_some c.cache key e
        (⟨d, now, cfg.ttl, 0, now, es d⟩ : CacheEntry α) hmem)
    simpa using h
  · exact mapGet_mapSet_self _ _ _

/-- Witness for C7 below capacity: overwriting the single `hourly_forecast`
entry keeps the store size at one. -/
theorem idempotent_overwrite_witness :
    ∃ c', WeatherCache.set (fun _ : Unit => 0) (oneEntry ("hourly_forecast:1,2"))
        ("hourly_forecast:1,2") () CacheType.HOURLY_FORECAST 7 = .ok c' ∧
      c'.cache.map Prod.fst = (oneEntry ("hourly_forecast:1,2")).cache.map Prod.fst ∧
      c'.cache.length = (oneEntry ("hourly_forecast:1,2")).cache.length ∧
      mapGet c'.cache ("hourly_forecast:1,2") = some ⟨(), 7, 1800000, 0, 7, 0⟩ ∧
      c'.stats = (oneEntry ("hourly_forecast:1,2")).stats :=
  idempotent_overwrite (fun _ : Unit => 0) (oneEntry ("hourly_forecast:1,2"))
    ("hourly_forecast:1,2") () CacheType.HOURLY_FORECAST 7 ⟨1800000, 300, 600000⟩
    ⟨(), 0, 1800000, 0, 0, 0⟩ (by rfl) (by decide) (by decide)

/-- C8: a fresh cache reports `hitRate = 0` (and `hitRate` is `0` whenever
`hits + misses = 0`, never a division by zero); after one `get` miss, a
`set`, and one `get` hit on the same key, the stats report `hits = 1`,
`misses = 1` and `hitRate = 1/2`. -/
theorem hit_miss_accounting :
    (WeatherCache.getStats (emptyCache : WeatherCache Unit)).hitRate = 0 ∧
    WeatherCache.get (emptyCache : WeatherCache Unit) ("k")
        CacheType.CURRENT_WEATHER 0 = (none, afterMiss) ∧
    WeatherCache.set (fun _ : Unit => 0) afterMiss ("k") ()
        CacheType.CURRENT_WEATHER 0 = .ok afterSet ∧
    WeatherCache.get afterSet ("k") CacheType.CURRENT_WEATHER 1 = (some (), afterHit) ∧
    (WeatherCache.getStats afterHit).hits = 1 ∧
    (WeatherCache.getStats afterHit).misses = 1 ∧
    (WeatherCache.getStats afterHit).hitRate = 1/2 ∧
    (∀ c : WeatherCache Unit, c.stats.hits + c.stats.misses = 0 →
        (WeatherCache.getStats c).hitRate = 0) := by
  refine ⟨rfl, rfl, rfl, rfl, rfl, rfl, ?_, ?_⟩
  · show (if 0 < (1 : ℕ) + 1 then ((1 : ℕ) : ℚ) / (((1 : ℕ) + 1 : ℕ) : ℚ) else 0) = 1 / 2
    norm_num
  · intro c h
    simp [WeatherCache.getStats, h]

/-- Witness for C8's no-division-by-zero clause at the fresh cache. -/
theorem hit_miss_accounting_witness :
    (WeatherCache.getStats (emptyCache : WeatherCache Unit)).hitRate = 0 :=
  hit_miss_accounting.2.2.2.2.2.2.2 emptyCache (by decide)

/-- C9: after any trace of `set`/`get` operations with non-decreasing call
times, starting from the empty cache, every live entry satisfies
`timestamp ≤ lastAccess` (`set` initializes both to the call time and a hit
only moves `lastAccess` forward). -/
theorem entry_recency {α : Type} (es : α → ℕ) (ops : List (ℤ × CacheOp α))
    (c' : WeatherCache α)
    (hmono : List.Chain' (fun a b => a.1 ≤ b.1) ops)
    (hok : applyOps es (emptyCache : WeatherCache α) ops = .ok c') :
    ∀ kv ∈ c'.cache, kv.2.timestamp ≤ kv.2.lastAccess := by
  cases ops with
  | nil =>
      cases hok
      intro kv hkv
      simp [emptyCache] at hkv
  | cons x rest =>
      have hinv : EntryInv (emptyCache : WeatherCache α) x.1 := by
        intro kv hkv
        simp [emptyCache] at hkv
      have hchain2 : List.Chain (fun a b : ℤ × CacheOp α => a.1 ≤ b.1) x rest := hmono
      have hchain : List.Chain (fun a b : ℤ => a ≤ b) x.1 ((x :: rest).map Prod.fst) := by
        rw [List.map_cons, List.chain_cons]
        exact ⟨le_refl _, (List.chain_map Prod.fst).2 hchain2⟩
      exact fun kv hkv =>
        (applyOps_inv es (x :: rest) emptyCache x.1 hinv hchain c' hok kv hkv).1

/-- Witness for C9 at the two-operation trace. -/
theorem entry_recency_witness :
    ((("k"), (⟨(), 0, 600000, 1, 1, 0⟩ : CacheEntry Unit)) :
        String × CacheEntry Unit).2.timestamp ≤
      ((("k"), (⟨(), 0, 600000, 1, 1, 0⟩ : CacheEntry Unit)) :
        String × CacheEntry Unit).2.lastAccess :=
  entry_recency (fun _ : Unit => 0) smallTrace smallTraceFinal
    (List.chain'_cons.2 ⟨by norm_num, List.chain'_singleton _⟩) (by rfl)
    (("k"), ⟨(), 0, 600000, 1, 1, 0⟩) (by simp [smallTraceFinal])

/-- C10: `generateKey` with an empty parameters object returns exactly the
key produced with the parameters field omitted — both are the bare
`type:lat,lon` string with no hash suffix. -/
theorem empty_params_key (md5hex8 : String → String) (t : String) (lat lon : ℚ) :
    generateKey md5hex8 ⟨lat, lon, t, some []⟩ = generateKey md5hex8 ⟨lat, lon, t, none⟩ ∧
    generateKey md5hex8 ⟨lat, lon, t, none⟩ =
      t ++ ":" ++ renderScaled (roundCoordScaled lat) ++ "," ++
        renderScaled (roundCoordScaled lon) := by
  exact ⟨rfl, rfl⟩

end MCPWeather
